import Mathlib

/-!
# DonutSMP Telegram bot — verification of the auction-house search/paging core

A shallow embedding of `donut_bot.py`.  Pure Python string helpers are
re-implemented character by character (Python's built-in string methods are
modelled by structurally recursive Lean functions so that every definition is
kernel-executable).  The stateful pieces (remote HTTP fetching, the
conversation-scoped `chat_data` cache, the Telegram message objects) are made
explicit: a remote auction listing feed is a function `Nat → List Listing`
from page numbers to the listings that page yields, the cache is an
association list passed in and returned, and a handler's observable effect is
an explicit result value.
-/

namespace DonutBot

/-- Python `str.split(sep)` for a one-character separator, on character lists:
splits at every occurrence of `sep`, keeping empty fields (so `"" ↦ [""]`,
`"a::b" ↦ ["a", "", "b"]`), exactly like CPython's `str.split(':')`. -/
def splitChar (sep : Char) : List Char → List (List Char)
  | [] => [[]]
  | c :: cs =>
    match splitChar sep cs with
    | [] => [[]]
    | g :: gs => if c = sep then [] :: g :: gs else (c :: g) :: gs

/-- Python `s.split(sep)` for a one-character separator (used by
`button_handler` as `query.data.split(':')`). -/
def pySplit (s : String) (sep : Char) : List String :=
  (splitChar sep s.data).map String.mk

/-- One step bound on fuel of Python `str.replace`: scan left to right, and at
each position replace the first occurrence of the (non-empty) pattern, then
continue after the replacement, like CPython's non-overlapping `str.replace`.
The fuel is instantiated with the string length, which suffices because each
step consumes at least one character of the subject. -/
def replaceFuel (pat rep : List Char) : Nat → List Char → List Char
  | _, [] => []
  | 0, l => l
  | fuel + 1, c :: cs =>
    if pat.isPrefixOf (c :: cs) then rep ++ replaceFuel pat rep fuel ((c :: cs).drop pat.length)
    else c :: replaceFuel pat rep fuel cs

/-- Python `s.replace(pat, rep)` for a non-empty pattern. -/
def pyReplace (s pat rep : String) : String :=
  String.mk (replaceFuel pat.data rep.data s.data.length s.data)

/-- Helper for Python `str.title` over the ASCII letters the bot's item
identifiers use: a cased character that follows a non-cased character is
uppercased, every other cased character is lowercased. -/
def pyTitleAux : Bool → List Char → List Char
  | _, [] => []
  | prevCased, c :: cs =>
    if c.isAlpha then (if prevCased then c.toLower else c.toUpper) :: pyTitleAux true cs
    else c :: pyTitleAux false cs

/-- Python `str.title()` (ASCII). -/
def pyTitle (s : String) : String := String.mk (pyTitleAux false s.data)

/-- Python `str.lower()` (ASCII). -/
def pyLower (s : String) : String := String.mk (s.data.map Char.toLower)

/-- Python's substring test `needle in hay`. -/
def strIn (needle hay : String) : Bool := decide (needle.data <:+: hay.data)

/-- ASCII whitespace, for the leading/trailing stripping Python's `int`
performs on its string argument. -/
def isPySpace (c : Char) : Bool := c = ' ' ∨ c = '\t' ∨ c = '\n' ∨ c = '\r'

/-- Core of Python `int(s)` after stripping: an optional sign followed by a
non-empty run of decimal digits; anything else raises `ValueError`, modelled
as `none`.  (CPython also accepts underscore digit grouping and non-ASCII
digits; the bot only ever feeds this parser ASCII page-index fields, so those
extensions are not modelled.) -/
def pyParseIntCore (l : List Char) : Option Int :=
  let (sign, digs) : Int × List Char :=
    match l with
    | '-' :: rest => (-1, rest)
    | '+' :: rest => (1, rest)
    | l => (1, l)
  if digs ≠ [] ∧ digs.all Char.isDigit then
    some (sign * (digs.foldl (fun n c => n * 10 + (c.toNat - '0'.toNat)) 0 : Nat))
  else none

/-- Python `int(s)`: `some n` when the string parses, `none` when `int`
raises `ValueError`. -/
def pyParseInt (s : String) : Option Int :=
  pyParseIntCore ((s.data.dropWhile isPySpace).reverse.dropWhile isPySpace).reverse

/-- Grouping step for Python's `f"{n:,}"` thousands formatting, applied to the
reversed digit list. -/
def commaChunks : List Char → List Char
  | a :: b :: c :: d :: rest => a :: b :: c :: ',' :: commaChunks (d :: rest)
  | l => l

/-- Python `f"{n:,}"` for a natural number. -/
def commaFmt (n : Nat) : String := String.mk ((commaChunks (Nat.repr n).data.reverse).reverse)

/-- `ITEMS_PER_PAGE = 10` from the configuration block. -/
def ITEMS_PER_PAGE : Nat := 10

/-- The characters escaped by `escape_markdown`
(`r'_*[]()~`>#+-=|{}.!'`). -/
def escapeChars : List Char :=
  ['_', '*', '[', ']', '(', ')', '~', '`', '>', '#', '+', '-', '=', '|', '\x7b', '\x7d', '.', '!']

/-- `escape_markdown`: prefix every reserved character with a backslash
(the `re.sub(f'([{...}])', r'\\\1', text)` call). -/
def escape_markdown (text : String) : String :=
  String.mk (text.data.flatMap (fun c => if c ∈ escapeChars then ['\\', c] else [c]))

/-- `format_item_id`:
`item_id.replace('minecraft:', '').replace('_', ' ').title()`. -/
def format_item_id (item_id : String) : String :=
  pyTitle (pyReplace (pyReplace item_id "minecraft:" "") "_" " ")

/-- One auction listing as the bot consumes it.  The Python code reads
`item.get('item', {}).get('id', …)`, `item.get('seller', {}).get('name', …)`
and `item.get('price', …)`; each read can find the field missing, which
`Option` records.  Prices are the non-negative integers the remote API
serves. -/
structure Listing where
  itemId : Option String
  sellerName : Option String
  price : Option Nat
deriving DecidableEq, Repr

/-- The sort/min key `lambda x: x.get('price', float('inf'))`: a missing
price is an infinite price. -/
def priceKey (item : Listing) : WithTop Nat :=
  match item.price with
  | some p => (p : WithTop Nat)
  | none => ⊤

/-- Boolean ≤ on the price key, the comparison `sorted`/`min` perform. -/
def priceLe (a b : Listing) : Bool := decide (priceKey a ≤ priceKey b)

/-- The match test both search loops run on each listing:
`search_term in format_item_id(item.get('item', {}).get('id', '')).lower()`. -/
def itemMatches (search_term : String) (item : Listing) : Bool :=
  strIn search_term (pyLower (format_item_id (item.itemId.getD "")))

/-- The matches one fetched page contributes:
`[item for item in auctions if search_term in item_name]`. -/
def pageMatches (fetch : Nat → List Listing) (search_term : String) (p : Nat) : List Listing :=
  (fetch p).filter (itemMatches search_term)

/-- The `while True` scan loop of `ah_command` (lines 213–224): fetch page
`page`; stop on an empty page; otherwise accumulate this page's matches,
increment the page, and stop once `page > 100`.  `fuel` bounds the number of
remaining iterations; the loop body runs at most 100 times (pages 1..100), so
the entry point below supplies fuel 100 and the fuel can never run out. -/
def ahLoop (fetch : Nat → List Listing) (search_term : String) :
    Nat → List Listing → Nat → List Listing
  | _, acc, 0 => acc
  | page, acc, fuel + 1 =>
    let auctions := fetch page
    if auctions.isEmpty then acc
    else
      let acc2 := acc ++ auctions.filter (itemMatches search_term)
      if page + 1 > 100 then acc2
      else ahLoop fetch search_term (page + 1) acc2 fuel

/-- `matching_items` as computed by `ah_command`'s scan, starting at page 1
with an empty accumulator. -/
def ah_matching_items (fetch : Nat → List Listing) (search_term : String) : List Listing :=
  ahLoop fetch search_term 1 [] 100

/-- `sorted(matching_items, key=lambda x: x.get('price', float('inf')))`:
Python's `sorted` is a stable sort by the key, modelled by `List.mergeSort`
(stable, sorts by a boolean ≤). -/
def sortListings (matching_items : List Listing) : List Listing :=
  matching_items.mergeSort priceLe

/-- `sorted_items` of `ah_command` (line 228). -/
def ah_sorted_items (fetch : Nat → List Listing) (search_term : String) : List Listing :=
  sortListings (ah_matching_items fetch search_term)

/-- Whether page `p` of the remote feed yields any items (the loop's
continuation test `if not auctions: break`, negated). -/
def pageNonempty (fetch : Nat → List Listing) (p : Nat) : Bool := !(fetch p).isEmpty

/-- The number of consecutive item-yielding pages from page 1, capped at 100:
exactly the pages whose items the `ah_command` scan consumes. -/
def ahStopIdx (fetch : Nat → List Listing) : Nat :=
  ((List.range' 1 100).takeWhile (pageNonempty fetch)).length

/-- All matches contributed by pages `1, …, k` in remote encounter order. -/
def scanUnion (fetch : Nat → List Listing) (search_term : String) (k : Nat) : List Listing :=
  (List.range' 1 k).flatMap (pageMatches fetch search_term)

/-- The number of `make_api_request` calls the `ah_command` loop performs,
mirroring the loop structure of `ahLoop`. -/
def ahFetchCountAux (fetch : Nat → List Listing) : Nat → Nat → Nat
  | _, 0 => 0
  | page, fuel + 1 =>
    if (fetch page).isEmpty then 1
    else if page + 1 > 100 then 1
    else 1 + ahFetchCountAux fetch (page + 1) fuel

/-- Total fetches performed by the `ah_command` scan. -/
def ahFetchCount (fetch : Nat → List Listing) : Nat := ahFetchCountAux fetch 1 100

/-- The `while True` scan loop of `price_command` (lines 263–272): identical
to the `ah_command` loop but with no `page > 100` cap, so it stops only on an
empty page.  The Python loop does not terminate on a feed that never ends;
`fuel` makes the model total, and the theorems show the result is independent
of the fuel once it covers the first empty page. -/
def priceLoop (fetch : Nat → List Listing) (search_term : String) :
    Nat → List Listing → Nat → List Listing
  | _, acc, 0 => acc
  | page, acc, fuel + 1 =>
    let auctions := fetch page
    if auctions.isEmpty then acc
    else priceLoop fetch search_term (page + 1) (acc ++ auctions.filter (itemMatches search_term)) fuel

/-- `matching_items` as computed by `price_command`'s scan. -/
def price_matching_items (fetch : Nat → List Listing) (search_term : String) (fuel : Nat) :
    List Listing :=
  priceLoop fetch search_term 1 [] fuel

/-- Python `min(l, key=key)`: the fold keeps the current minimum and replaces
it only on a strictly smaller key, so the first listing attaining the minimal
key wins; `none` models the `ValueError` on an empty list (guarded against in
`price_command`). -/
def pyMinBy (key : Listing → WithTop Nat) : List Listing → Option Listing
  | [] => none
  | x :: xs => some (xs.foldl (fun acc y => if key y < key acc then y else acc) x)

/-- `lowest_auction = min(matching_items, key=lambda x: x.get('price', float('inf')))`
of `price_command` (line 276). -/
def lowest_auction (fetch : Nat → List Listing) (search_term : String) (fuel : Nat) :
    Option Listing :=
  pyMinBy priceKey (price_matching_items fetch search_term fuel)

/-- A Telegram inline keyboard button: display label and callback token. -/
structure InlineKeyboardButton where
  text : String
  callback_data : String
deriving DecidableEq, Repr

/-- Clamp one Python slice index to `[0, len]`: negative indices count from
the end (`max (len + i) 0`), non-negative ones are capped at `len`. -/
def pyIdx (len : Nat) (i : Int) : Nat :=
  if i < 0 then ((len : Int) + i).toNat else min i.toNat len

/-- Python's slice `l[a:b]`. -/
def pySlice {α : Type} (l : List α) (a b : Int) : List α :=
  (l.take (pyIdx l.length b)).drop (pyIdx l.length a)

/-- One rendered listing line of `build_ah_page`/`auctions_command`:
``f"`{item_name}` from *{seller}* for \`${escape_markdown(price)}\`\."``. -/
def listingLine (item : Listing) : String :=
  "`" ++ escape_markdown (format_item_id (item.itemId.getD "Unknown")) ++ "` from *"
    ++ escape_markdown (item.sellerName.getD "Unknown") ++ "* for \\`$"
    ++ escape_markdown (commaFmt (item.price.getD 0)) ++ "\\`\\."

/-- `page_items = sorted_items[start_index:end_index]` of `build_ah_page`,
with `start_index = page_index * ITEMS_PER_PAGE` and
`end_index = start_index + ITEMS_PER_PAGE`. -/
def page_items_of (sorted_items : List Listing) (page_index : Int) : List Listing :=
  pySlice sorted_items (page_index * (ITEMS_PER_PAGE : Int))
    (page_index * (ITEMS_PER_PAGE : Int) + (ITEMS_PER_PAGE : Int))

/-- `build_ah_page` (lines 187–203): the message text and the inline keyboard
(one row).  A "previous" button is added iff `page_index > 0`, a "next"
button iff `end_index < len(sorted_items)`; each button's callback token is
`"ah:{search_id}:{target page}"`. -/
def build_ah_page (search_id search_term : String) (sorted_items : List Listing)
    (page_index : Int) : String × List (List InlineKeyboardButton) :=
  let start_index : Int := page_index * (ITEMS_PER_PAGE : Int)
  let end_index : Int := start_index + (ITEMS_PER_PAGE : Int)
  let page_items := page_items_of sorted_items page_index
  let message_parts :=
    ("Found *" ++ toString sorted_items.length ++ "* match\\(es\\) for `"
        ++ escape_markdown search_term ++ "`\\. Page " ++ toString (page_index + 1) ++ ":")
      :: page_items.map listingLine
  let message_text := String.intercalate "\n" message_parts
  let buttons :=
    (if page_index > 0 then
        [InlineKeyboardButton.mk "⬅️ Previous"
          ("ah:" ++ search_id ++ ":" ++ toString (page_index - 1))]
      else [])
    ++ (if end_index < (sorted_items.length : Int) then
        [InlineKeyboardButton.mk "Next ➡️"
          ("ah:" ++ search_id ++ ":" ++ toString (page_index + 1))]
      else [])
  (message_text, [buttons])

/-- Observation: the keyboard carries a "previous" control. -/
def hasPrevControl (keyboard : List (List InlineKeyboardButton)) : Bool :=
  (keyboard.flatMap (fun row => row)).any (fun b => b.text == "⬅️ Previous")

/-- Observation: the keyboard carries a "next" control. -/
def hasNextControl (keyboard : List (List InlineKeyboardButton)) : Bool :=
  (keyboard.flatMap (fun row => row)).any (fun b => b.text == "Next ➡️")

/-- One cached search: the `{'term': …, 'results': …}` dict `ah_command`
stores in `context.chat_data[search_id]`. -/
structure CachedSearch where
  term : String
  results : List Listing
deriving DecidableEq

/-- The conversation-scoped `context.chat_data` mapping, as an association
list from search ids to cached searches. -/
abbrev ChatData := List (String × CachedSearch)

/-- `context.chat_data.get(search_id)`. -/
def chatDataGet (chat_data : ChatData) (search_id : String) : Option CachedSearch :=
  (chat_data.find? (fun e => e.1 == search_id)).map (fun e => e.2)

/-- The observable outcome of one `button_handler` invocation.  `silent`
covers both the caught `ValueError` of the 3-way unpacking of
`query.data.split(':')` and the fall-through when the command field is not
`'ah'`; `valueErrorRaised` records the uncaught `ValueError` that
`int(page_index_str)` raises on a non-integer field; the two edit outcomes
carry what `query.edit_message_text` is called with.  (The bare
`try/except: pass` around the final edit call only swallows Telegram-side
delivery errors, which are outside the model.) -/
inductive HandlerResult where
  | silent
  | valueErrorRaised (page_index_str : String)
  | expiredMessage
  | editedMessage (text : String) (keyboard : List (List InlineKeyboardButton))
deriving DecidableEq

/-- `button_handler` (lines 234–253), as a function from the cache and the
incoming callback token to its observable outcome and the cache afterwards
(the handler never writes to `chat_data`). -/
def button_handler (chat_data : ChatData) (callback_data : String) :
    HandlerResult × ChatData :=
  match pySplit callback_data ':' with
  | [command, search_id, page_index_str] =>
    match pyParseInt page_index_str with
    | none => (.valueErrorRaised page_index_str, chat_data)
    | some page_index =>
      if command = "ah" then
        match chatDataGet chat_data search_id with
        | none => (.expiredMessage, chat_data)
        | some cached_data =>
          let pg := build_ah_page search_id cached_data.term cached_data.results page_index
          (.editedMessage pg.1 pg.2, chat_data)
      else (.silent, chat_data)
  | _ => (.silent, chat_data)

/-- Severity of a log record (`logger.warning` / `logger.error`). -/
inductive LogLevel where
  | warning
  | error
deriving DecidableEq, Repr

/-- What one HTTP attempt came back with: a response with its status code,
body text and the result of `response.json()` (`none` when the body is not
parseable JSON and `.json()` raises `ValueError`), or a transport failure
(`requests.exceptions.RequestException`). -/
inductive ApiResponse (α : Type) where
  | response (status : Nat) (text : String) (json : Option α)
  | requestException (message : String)

/-- `make_api_request` (lines 31–43): returns the parsed payload for status
200 or 500, `None` for 404 with nothing logged, `None` with a warning log for
every other status, and `None` with an error log on a transport failure or a
JSON parse failure. -/
def make_api_request {α : Type} (endpoint : String) (resp : ApiResponse α) :
    Option α × List (LogLevel × String) :=
  match resp with
  | .requestException e =>
    (none, [(.error, "Failed to call API endpoint " ++ endpoint ++ ": " ++ e)])
  | .response status text json =>
    if status = 200 ∨ status = 500 then
      match json with
      | some payload => (some payload, [])
      | none =>
        (none, [(.error, "Failed to call API endpoint " ++ endpoint ++ ": JSON decode error")])
    else if status = 404 then (none, [])
    else
      (none, [(.warning, "API Error on " ++ endpoint ++ ": " ++ Nat.repr status ++ " - " ++ text)])

/-- "First-encountered minimum": `m` occurs in `l`, every listing before that
occurrence has a strictly larger price key, and every listing after it has a
larger-or-equal one. -/
def IsFirstMin (key : Listing → WithTop Nat) (l : List Listing) (m : Listing) : Prop :=
  ∃ l1 l2, l = l1 ++ m :: l2 ∧ (∀ a ∈ l1, key m < key a) ∧ (∀ b ∈ l2, key m ≤ key b)

/-! ## Concrete data for witnesses -/

/-- A concrete listing. -/
def stoneA : Listing := ⟨some "minecraft:stone", some "alice", some 300⟩

/-- A concrete listing. -/
def stoneB : Listing := ⟨some "minecraft:stone", some "bob", some 100⟩

/-- A concrete listing. -/
def stoneC : Listing := ⟨some "minecraft:stone_bricks", some "carol", some 100⟩

/-- A concrete listing with no price field. -/
def dirtD : Listing := ⟨some "minecraft:dirt", some "dave", none⟩

/-- A concrete remote feed with two non-empty pages. -/
def fetchTwoPages : Nat → List Listing := fun p =>
  if p = 1 then [stoneA, stoneB] else if p = 2 then [stoneC, dirtD] else []

/-- 25 concrete listings, for the paging-boundary scenario. -/
def listing25 : List Listing :=
  (List.range 25).map (fun i => ⟨some "minecraft:stone", some "s", some (i + 1)⟩)

/-! ## General lemmas -/

theorem priceLe_trans : ∀ (a b c : Listing), priceLe a b → priceLe b c → priceLe a c := by
  intro a b c hab hbc
  simp only [priceLe, decide_eq_true_eq] at *
  exact le_trans hab hbc

theorem priceLe_total : ∀ (a b : Listing), priceLe a b || priceLe b a := by
  intro a b
  simp only [priceLe, Bool.or_eq_true, decide_eq_true_eq]
  exact le_total _ _

theorem length_takeWhile_le' {α : Type} (pred : α → Bool) :
    ∀ (l : List α), (l.takeWhile pred).length ≤ l.length := by
  intro l
  induction l with
  | nil => simp
  | cons a t ih =>
    rw [List.takeWhile_cons]
    by_cases h : pred a
    · simpa [h] using Nat.succ_le_succ ih
    · simp [h]

theorem takeWhile_range'_le (pred : Nat → Bool) (n s : Nat) :
    ((List.range' s n).takeWhile pred).length ≤ n := by
  simpa using length_takeWhile_le' pred (List.range' s n)

theorem takeWhile_range'_eq (pred : Nat → Bool) :
    ∀ (n s : Nat),
      (List.range' s n).takeWhile pred
        = List.range' s ((List.range' s n).takeWhile pred).length := by
  intro n
  induction n with
  | zero => intro s; simp
  | succ n ih =>
    intro s
    rw [List.range'_succ, List.takeWhile_cons]
    by_cases h : pred s
    · rw [if_pos h, List.length_cons, List.range'_succ]
      exact congrArg (List.cons s) (ih (s + 1))
    · rw [if_neg h]
      simp

theorem takeWhile_range'_true (pred : Nat → Bool) :
    ∀ (n s p : Nat), s ≤ p → p < s + ((List.range' s n).takeWhile pred).length →
      pred p = true := by
  intro n
  induction n with
  | zero => intro s p _ hlt; simp at hlt; omega
  | succ n ih =>
    intro s p hsp hlt
    rw [List.range'_succ, List.takeWhile_cons] at hlt
    by_cases h : pred s
    · rw [if_pos h, List.length_cons] at hlt
      rcases Nat.eq_or_lt_of_le hsp with rfl | hlt'
      · exact h
      · exact ih (s + 1) p hlt' (by omega)
    · rw [if_neg h] at hlt
      simp at hlt
      omega

theorem takeWhile_range'_stop (pred : Nat → Bool) :
    ∀ (n s : Nat), ((List.range' s n).takeWhile pred).length < n →
      pred (s + ((List.range' s n).takeWhile pred).length) = false := by
  intro n
  induction n with
  | zero => intro s h; omega
  | succ n ih =>
    intro s hlt
    rw [List.range'_succ, List.takeWhile_cons]
    rw [List.range'_succ, List.takeWhile_cons] at hlt
    by_cases h : pred s
    · rw [if_pos h] at hlt ⊢
      rw [List.length_cons] at hlt ⊢
      have := ih (s + 1) (by omega)
      simpa [Nat.add_comm, Nat.add_assoc, Nat.add_left_comm] using this
    · rw [if_neg h] at hlt ⊢
      simpa using h

theorem takeWhile_range'_of_boundary (pred : Nat → Bool) :
    ∀ (k n s : Nat), k < n → (∀ p, s ≤ p → p < s + k → pred p = true) →
      pred (s + k) = false →
      (List.range' s n).takeWhile pred = List.range' s k := by
  intro k
  induction k with
  | zero =>
    intro n s hkn _ hfalse
    obtain ⟨m, rfl⟩ : ∃ m, n = m + 1 := ⟨n - 1, by omega⟩
    rw [List.range'_succ, List.takeWhile_cons, if_neg (by simpa using hfalse)]
    simp
  | succ k ih =>
    intro n s hkn htrue hfalse
    obtain ⟨m, rfl⟩ : ∃ m, n = m + 1 := ⟨n - 1, by omega⟩
    have hs : pred s = true := htrue s le_rfl (by omega)
    rw [List.range'_succ, List.takeWhile_cons, if_pos hs, List.range'_succ]
    refine congrArg (List.cons s) (ih m (s + 1) (by omega) ?_ ?_)
    · intro p hp1 hp2
      exact htrue p (by omega) (by omega)
    · have : s + 1 + k = s + (k + 1) := by omega
      rw [this]
      exact hfalse

theorem ahLoop_eq (fetch : Nat → List Listing) (search_term : String) :
    ∀ (fuel page : Nat) (acc : List Listing), page + fuel = 101 →
      ahLoop fetch search_term page acc fuel
        = acc ++ ((List.range' page fuel).takeWhile (pageNonempty fetch)).flatMap
            (pageMatches fetch search_term) := by
  intro fuel
  induction fuel with
  | zero => intro page acc _; simp [ahLoop]
  | succ fuel ih =>
    intro page acc hsum
    rw [ahLoop, List.range'_succ, List.takeWhile_cons]
    by_cases hemp : (fetch page).isEmpty
    · rw [if_pos hemp]
      have : pageNonempty fetch page = false := by simp [pageNonempty, hemp]
      rw [if_neg (by simp [this])]
      simp
    · rw [if_neg hemp]
      have hpn : pageNonempty fetch page = true := by simp [pageNonempty, hemp]
      rw [if_pos hpn, List.flatMap_cons]
      by_cases hcap : page + 1 > 100
      · have hf0 : fuel = 0 := by omega
        subst hf0
        rw [if_pos hcap]
        simp [pageMatches]
      · rw [if_neg hcap, ih (page + 1) _ (by omega)]
        simp [pageMatches, List.append_assoc]

theorem priceLoop_eq (fetch : Nat → List Listing) (search_term : String) :
    ∀ (fuel page : Nat) (acc : List Listing),
      priceLoop fetch search_term page acc fuel
        = acc ++ ((List.range' page fuel).takeWhile (pageNonempty fetch)).flatMap
            (pageMatches fetch search_term) := by
  intro fuel
  induction fuel with
  | zero => intro page acc; simp [priceLoop]
  | succ fuel ih =>
    intro page acc
    rw [priceLoop, List.range'_succ, List.takeWhile_cons]
    by_cases hemp : (fetch page).isEmpty
    · rw [if_pos hemp]
      have : pageNonempty fetch page = false := by simp [pageNonempty, hemp]
      rw [if_neg (by simp [this])]
      simp
    · rw [if_neg hemp]
      have hpn : pageNonempty fetch page = true := by simp [pageNonempty, hemp]
      rw [if_pos hpn, List.flatMap_cons, ih (page + 1)]
      simp [pageMatches, List.append_assoc]

theorem ahFetchCountAux_eq (fetch : Nat → List Listing) :
    ∀ (fuel page : Nat), page + fuel = 101 →
      ahFetchCountAux fetch page fuel
        = min (((List.range' page fuel).takeWhile (pageNonempty fetch)).length + 1) fuel := by
  intro fuel
  induction fuel with
  | zero => intro page _; simp [ahFetchCountAux]
  | succ fuel ih =>
    intro page hsum
    rw [ahFetchCountAux, List.range'_succ, List.takeWhile_cons]
    by_cases hemp : (fetch page).isEmpty
    · rw [if_pos hemp]
      have : pageNonempty fetch page = false := by simp [pageNonempty, hemp]
      rw [if_neg (by simp [this])]
      simp
    · rw [if_neg hemp]
      have hpn : pageNonempty fetch page = true := by simp [pageNonempty, hemp]
      rw [if_pos hpn]
      by_cases hcap : page + 1 > 100
      · have hf0 : fuel = 0 := by omega
        subst hf0
        rw [if_pos hcap]
        simp
      · rw [if_neg hcap, ih (page + 1) (by omega)]
        rw [List.length_cons]
        omega

/-- The matches `ah_command` accumulates are exactly the filtered contents of
pages `1..ahStopIdx`, in remote order. -/
theorem ah_matching_items_eq (fetch : Nat → List Listing) (search_term : String) :
    ah_matching_items fetch search_term = scanUnion fetch search_term (ahStopIdx fetch) := by
  rw [ah_matching_items, ahLoop_eq fetch search_term 100 1 [] (by omega)]
  rw [scanUnion]
  rw [takeWhile_range'_eq (pageNonempty fetch) 100 1]
  rfl

theorem sortListings_perm (l : List Listing) : (sortListings l).Perm l :=
  List.mergeSort_perm l priceLe

theorem sortListings_pairwise (l : List Listing) :
    (sortListings l).Pairwise (fun a b => priceKey a ≤ priceKey b) := by
  have h := List.sorted_mergeSort priceLe_trans priceLe_total l
  exact h.imp (fun hab => by simpa [priceLe, decide_eq_true_eq] using hab)

/-- Stability of the price sort: inside each price-key class the sorted list
keeps the original order. -/
theorem sortListings_filter_key (l : List Listing) (K : WithTop Nat) :
    (sortListings l).filter (fun x => decide (priceKey x = K))
      = l.filter (fun x => decide (priceKey x = K)) := by
  have hc : (l.filter (fun x => decide (priceKey x = K))).Pairwise
      (fun a b => priceLe a b = true) := by
    apply List.pairwise_of_forall_mem_list
    intro a ha b hb
    have hKa : priceKey a = K := by
      have := (List.mem_filter.mp ha).2
      simpa using this
    have hKb : priceKey b = K := by
      have := (List.mem_filter.mp hb).2
      simpa using this
    simp [priceLe, hKa, hKb]
  have hsub : List.Sublist (l.filter (fun x => decide (priceKey x = K))) (l.mergeSort priceLe) :=
    List.sublist_mergeSort priceLe_trans priceLe_total hc (List.filter_sublist l)
  have hidem : (l.filter (fun x => decide (priceKey x = K))).filter
      (fun x => decide (priceKey x = K)) = l.filter (fun x => decide (priceKey x = K)) :=
    List.filter_eq_self.mpr (fun a ha => (List.mem_filter.mp ha).2)
  have hsub2 : List.Sublist (l.filter (fun x => decide (priceKey x = K)))
      ((l.mergeSort priceLe).filter (fun x => decide (priceKey x = K))) := by
    rw [← hidem]
    exact List.Sublist.filter _ hsub
  have hperm : ((l.mergeSort priceLe).filter (fun x => decide (priceKey x = K))).Perm
      (l.filter (fun x => decide (priceKey x = K))) :=
    (List.mergeSort_perm l priceLe).filter _
  exact (hsub2.eq_of_length hperm.length_eq.symm).symm

theorem foldl_min_isFirstMin (key : Listing → WithTop Nat) :
    ∀ (xs : List Listing) (x : Listing),
      IsFirstMin key (x :: xs)
        (xs.foldl (fun acc y => if key y < key acc then y else acc) x)
  | [], x => ⟨[], [], rfl, by simp, by simp⟩
  | y :: ys, x => by
    have hstep : (y :: ys).foldl (fun acc y => if key y < key acc then y else acc) x
        = ys.foldl (fun acc y => if key y < key acc then y else acc)
            (if key y < key x then y else x) := rfl
    by_cases h : key y < key x
    · obtain ⟨l1, l2, hdec, hlt, hle⟩ := foldl_min_isFirstMin key ys y
      rw [hstep, if_pos h]
      set m := ys.foldl (fun acc y => if key y < key acc then y else acc) y with hm
      have hmy : key m ≤ key y := by
        cases l1 with
        | nil =>
          have : y = m := by simpa using congrArg (fun t => t.head?) hdec
          rw [← this]
        | cons a l1' =>
          have hya : y = a := by simpa using congrArg (fun t => t.head?) hdec
          exact le_of_lt (hya ▸ hlt a (List.mem_cons_self a l1'))
      refine ⟨x :: l1, l2, ?_, ?_, hle⟩
      · rw [List.cons_append, ← hdec]
      · intro a ha
        rcases List.mem_cons.mp ha with rfl | ha'
        · exact lt_of_le_of_lt hmy h
        · exact hlt a ha'
    · obtain ⟨l1, l2, hdec, hlt, hle⟩ := foldl_min_isFirstMin key ys x
      rw [hstep, if_neg h]
      set m := ys.foldl (fun acc y => if key y < key acc then y else acc) x with hm
      have hxy : key x ≤ key y := le_of_not_lt h
      cases l1 with
      | nil =>
        have hxm : x = m := by simpa using congrArg (fun t => t.head?) hdec
        have hl2 : ys = l2 := by simpa using congrArg (fun t => t.tail) hdec
        refine ⟨[], y :: ys, by rw [← hxm]; rfl, by simp, ?_⟩
        intro b hb
        rcases List.mem_cons.mp hb with rfl | hb'
        · exact hxm ▸ hxy
        · exact hle b (hl2 ▸ hb')
      | cons a l1' =>
        have hxa : x = a := by simpa using congrArg (fun t => t.head?) hdec
        have hys : ys = l1' ++ m :: l2 := by simpa using congrArg (fun t => t.tail) hdec
        refine ⟨x :: y :: l1', l2, ?_, ?_, hle⟩
        · rw [List.cons_append, List.cons_append, ← hys]
        · intro a' ha'
          have hmx : key m < key x := hxa ▸ hlt a (List.mem_cons_self a l1')
          rcases List.mem_cons.mp ha' with rfl | ha''
          · exact hmx
          · rcases List.mem_cons.mp ha'' with rfl | ha3
            · exact lt_of_lt_of_le hmx hxy
            · exact hlt a' (List.mem_cons_of_mem a ha3)

theorem pyMinBy_isFirstMin (key : Listing → WithTop Nat) (l : List Listing) (h : l ≠ []) :
    ∃ m, pyMinBy key l = some m ∧ IsFirstMin key l m := by
  cases l with
  | nil => exact absurd rfl h
  | cons x xs => exact ⟨_, rfl, foldl_min_isFirstMin key xs x⟩

/-- A first-encountered minimum is a global minimum. -/
theorem IsFirstMin.min_le (key : Listing → WithTop Nat) {l : List Listing} {m : Listing}
    (hfm : IsFirstMin key l m) : ∀ z ∈ l, key m ≤ key z := by
  obtain ⟨l1, l2, hdec, hlt, hle⟩ := hfm
  intro z hz
  rw [hdec] at hz
  rcases List.mem_append.mp hz with hz1 | hz2
  · exact le_of_lt (hlt z hz1)
  · rcases List.mem_cons.mp hz2 with rfl | hz3
    · exact le_refl _
    · exact hle z hz3

/-- The head of the stable price sort is exactly Python's
`min(l, key=price-key)`: the first listing attaining the minimal key. -/
theorem head?_sortListings (l : List Listing) (h : l ≠ []) :
    (sortListings l).head? = pyMinBy priceKey l := by
  obtain ⟨m, hpm, hfm⟩ := pyMinBy_isFirstMin priceKey l h
  obtain ⟨l1, l2, hdec, hlt, hle⟩ := hfm
  have hne : sortListings l ≠ [] := by
    intro hnil
    have := (sortListings_perm l).length_eq
    rw [hnil] at this
    exact h (List.length_eq_zero.mp this.symm)
  obtain ⟨h0, rest, hsrt⟩ : ∃ h0 rest, sortListings l = h0 :: rest := by
    cases hs : sortListings l with
    | nil => exact absurd hs hne
    | cons a t => exact ⟨a, t, rfl⟩
  have hmem_sorted_iff : ∀ z, z ∈ sortListings l ↔ z ∈ l :=
    fun z => (sortListings_perm l).mem_iff
  have hmin0 : ∀ z ∈ l, priceKey h0 ≤ priceKey z := by
    intro z hz
    have hz' : z ∈ sortListings l := (hmem_sorted_iff z).mpr hz
    rw [hsrt] at hz'
    rcases List.mem_cons.mp hz' with rfl | hz''
    · exact le_refl _
    · have hp := sortListings_pairwise l
      rw [hsrt] at hp
      exact List.rel_of_pairwise_cons hp hz''
  have h0mem : h0 ∈ l := by
    have : h0 ∈ sortListings l := by rw [hsrt]; exact List.mem_cons_self h0 rest
    exact (hmem_sorted_iff h0).mp this
  have hmmem : m ∈ l := by
    rw [hdec]
    exact List.mem_append.mpr (Or.inr (List.mem_cons_self m l2))
  have hK : priceKey h0 = priceKey m :=
    le_antisymm (hmin0 m hmmem) (IsFirstMin.min_le priceKey ⟨l1, l2, hdec, hlt, hle⟩ h0 h0mem)
  have hfil := sortListings_filter_key l (priceKey m)
  have hL : (sortListings l).filter (fun x => decide (priceKey x = priceKey m))
      = h0 :: rest.filter (fun x => decide (priceKey x = priceKey m)) := by
    rw [hsrt]
    exact List.filter_cons_of_pos (by simp [hK])
  have hl1nil : l1.filter (fun x => decide (priceKey x = priceKey m)) = [] := by
    rw [List.filter_eq_nil_iff]
    intro a ha
    have := hlt a ha
    simp only [decide_eq_true_eq]
    exact fun heq => absurd (heq ▸ this) (lt_irrefl _)
  have hR : l.filter (fun x => decide (priceKey x = priceKey m))
      = m :: l2.filter (fun x => decide (priceKey x = priceKey m)) := by
    rw [hdec, List.filter_append, hl1nil, List.nil_append]
    exact List.filter_cons_of_pos (by simp)
  have h0m : h0 = m := by
    have heq := hfil
    rw [hL, hR] at heq
    exact (List.cons.injEq _ _ _ _ ▸ heq).1
  rw [hsrt, hpm, h0m]
  rfl

theorem take_min_length {α : Type} (l : List α) (n : Nat) :
    l.take (min n l.length) = l.take n := by
  rcases le_total n l.length with h | h
  · rw [min_eq_left h]
  · rw [min_eq_right h, List.take_length, List.take_of_length_le h]

theorem drop_min_length {α : Type} (l : List α) (n : Nat) :
    l.drop (min n l.length) = l.drop n := by
  rcases le_total n l.length with h | h
  · rw [min_eq_left h]
  · rw [min_eq_right h, List.drop_length, List.drop_eq_nil_of_le h]

/-- A Python slice with natural bounds is drop-then-take. -/
theorem pySlice_natCast {α : Type} (l : List α) (a b : Nat) :
    pySlice l (a : Int) (b : Int) = (l.drop a).take (b - a) := by
  rw [pySlice, pyIdx, pyIdx]
  rw [if_neg (by omega), if_neg (by omega)]
  rw [Int.toNat_ofNat, Int.toNat_ofNat]
  rw [take_min_length]
  rcases le_total a l.length with h | h
  · rw [min_eq_left h]
    exact List.drop_take b a l
  · rw [min_eq_right h]
    rw [List.drop_eq_nil_of_le (by rw [List.length_take]; omega)]
    rw [List.drop_eq_nil_of_le h, List.take_nil]

/-- The slice `build_ah_page` takes for a non-negative page index. -/
theorem page_items_of_natCast (l : List Listing) (p : Nat) :
    page_items_of l (p : Int) = (l.drop (p * 10)).take 10 := by
  rw [page_items_of]
  have h1 : (p : Int) * (ITEMS_PER_PAGE : Int) = ((p * 10 : Nat) : Int) := by
    rw [ITEMS_PER_PAGE]; push_cast; ring
  have h2 : (p : Int) * (ITEMS_PER_PAGE : Int) + (ITEMS_PER_PAGE : Int)
      = ((p * 10 + 10 : Nat) : Int) := by
    rw [ITEMS_PER_PAGE]; push_cast; ring
  rw [h2, h1, pySlice_natCast]
  congr 1
  omega

/-- The keyboard row `build_ah_page` returns, written out. -/
theorem build_ah_page_snd (search_id search_term : String) (l : List Listing) (pi : Int) :
    (build_ah_page search_id search_term l pi).2
      = [(if pi > 0 then
            [InlineKeyboardButton.mk "⬅️ Previous" ("ah:" ++ search_id ++ ":" ++ toString (pi - 1))]
          else [])
         ++ (if pi * (ITEMS_PER_PAGE : Int) + (ITEMS_PER_PAGE : Int) < (l.length : Int) then
            [InlineKeyboardButton.mk "Next ➡️" ("ah:" ++ search_id ++ ":" ++ toString (pi + 1))]
          else [])] := rfl

theorem hasPrevControl_build (search_id search_term : String) (l : List Listing) (pi : Int) :
    hasPrevControl (build_ah_page search_id search_term l pi).2 = decide (0 < pi) := by
  rw [build_ah_page_snd, hasPrevControl]
  by_cases h1 : pi > 0 <;>
    by_cases h2 : pi * (ITEMS_PER_PAGE : Int) + (ITEMS_PER_PAGE : Int) < (l.length : Int) <;>
    simp [h1, h2]

theorem hasNextControl_build (search_id search_term : String) (l : List Listing) (pi : Int) :
    hasNextControl (build_ah_page search_id search_term l pi).2
      = decide (pi * (ITEMS_PER_PAGE : Int) + (ITEMS_PER_PAGE : Int) < (l.length : Int)) := by
  rw [build_ah_page_snd, hasNextControl]
  by_cases h1 : pi > 0 <;>
    by_cases h2 : pi * (ITEMS_PER_PAGE : Int) + (ITEMS_PER_PAGE : Int) < (l.length : Int) <;>
    simp [h1, h2]

/-- `button_handler` never writes to the conversation cache. -/
theorem button_handler_snd (chat_data : ChatData) (callback_data : String) :
    (button_handler chat_data callback_data).2 = chat_data := by
  rw [button_handler]
  split
  · split
    · rfl
    · split
      · split <;> rfl
      · rfl
  · rfl

/-! ## Claim theorems -/

/-- C1: For every search term and every page-fetch function, the exhaustive
search (`/ah`) returns exactly the listings of the remote data whose
normalized item name contains the term as a substring, sorted ascending by
price: the scan visits ascending pages `1..ahStopIdx`, each of which yields
items; it stops either at the hard cap of 100 pages or at the first page
yielding no items, truncating the match set at that boundary; and it performs
`min (ahStopIdx+1) 100 ≤ 100` fetches (hence terminates). -/
theorem ah_command_search_correct (fetch : Nat → List Listing) (search_term : String) :
    ahStopIdx fetch ≤ 100
    ∧ ah_matching_items fetch search_term = scanUnion fetch search_term (ahStopIdx fetch)
    ∧ ah_sorted_items fetch search_term
        = (scanUnion fetch search_term (ahStopIdx fetch)).mergeSort priceLe
    ∧ (ah_sorted_items fetch search_term).Perm (scanUnion fetch search_term (ahStopIdx fetch))
    ∧ (ah_sorted_items fetch search_term).Pairwise (fun a b => priceKey a ≤ priceKey b)
    ∧ (List.range' 1 (ahStopIdx fetch)).all (pageNonempty fetch) = true
    ∧ (ahStopIdx fetch = 100 ∨ fetch (ahStopIdx fetch + 1) = [])
    ∧ ahFetchCount fetch = min (ahStopIdx fetch + 1) 100
    ∧ ahFetchCount fetch ≤ 100 := by
  have hlen : ((List.range' 1 100).takeWhile (pageNonempty fetch)).length = ahStopIdx fetch := rfl
  have hk : ahStopIdx fetch ≤ 100 := by
    rw [ahStopIdx]
    exact takeWhile_range'_le _ 100 1
  have hmat := ah_matching_items_eq fetch search_term
  refine ⟨hk, hmat, ?_, ?_, ?_, ?_, ?_, ?_, ?_⟩
  · rw [ah_sorted_items, hmat]
    rfl
  · rw [ah_sorted_items, hmat]
    exact sortListings_perm _
  · rw [ah_sorted_items]
    exact sortListings_pairwise _
  · rw [List.all_eq_true]
    intro p hp
    rw [List.mem_range'] at hp
    obtain ⟨i, hik, rfl⟩ := hp
    refine takeWhile_range'_true (pageNonempty fetch) 100 1 _ (by omega) ?_
    omega
  · rcases Nat.lt_or_ge (ahStopIdx fetch) 100 with hlt | hge
    · right
      have hstop := takeWhile_range'_stop (pageNonempty fetch) 100 1 (by omega)
      rw [hlen] at hstop
      have hemp : (fetch (ahStopIdx fetch + 1)).isEmpty = true := by
        have : 1 + ahStopIdx fetch = ahStopIdx fetch + 1 := by omega
        rw [this] at hstop
        simpa [pageNonempty] using hstop
      exact List.isEmpty_iff.mp hemp
    · left
      omega
  · rw [ahFetchCount, ahFetchCountAux_eq fetch 100 1 (by omega), hlen]
  · rw [ahFetchCount, ahFetchCountAux_eq fetch 100 1 (by omega)]
    omega

/-- C2: For every search term and every page-fetch function whose remote data
ends (pages `1..k` yield items, page `k+1` yields none, with `k` unbounded —
no page cap), the minimum search (`/price`) accumulates exactly the matches
of pages `1..k` (independently of any sufficiently large fuel bound on the
unbounded loop) and returns the single matching listing of lowest price, ties
among equal lowest prices broken in favour of the first-encountered listing
in remote order (`IsFirstMin`). -/
theorem price_command_search_correct (fetch : Nat → List Listing) (search_term : String)
    (k fuel : Nat)
    (hpages : ∀ p, 1 ≤ p → p ≤ k → fetch p ≠ [])
    (hstop : fetch (k + 1) = [])
    (hfuel : k + 1 ≤ fuel)
    (hne : scanUnion fetch search_term k ≠ []) :
    price_matching_items fetch search_term fuel = scanUnion fetch search_term k
    ∧ ∃ m, lowest_auction fetch search_term fuel = some m
        ∧ IsFirstMin priceKey (scanUnion fetch search_term k) m := by
  have htrue : ∀ p, 1 ≤ p → p < 1 + k → pageNonempty fetch p = true := by
    intro p hp1 hp2
    have := hpages p hp1 (by omega)
    simp [pageNonempty, List.isEmpty_iff, this]
  have hfalse : pageNonempty fetch (1 + k) = false := by
    have : 1 + k = k + 1 := by omega
    simp [pageNonempty, List.isEmpty_iff, this, hstop]
  have htw : (List.range' 1 fuel).takeWhile (pageNonempty fetch) = List.range' 1 k :=
    takeWhile_range'_of_boundary (pageNonempty fetch) k fuel 1 (by omega) htrue hfalse
  have hmat : price_matching_items fetch search_term fuel = scanUnion fetch search_term k := by
    rw [price_matching_items, priceLoop_eq fetch search_term fuel 1 [], htw]
    rfl
  refine ⟨hmat, ?_⟩
  obtain ⟨m, hpm, hfm⟩ := pyMinBy_isFirstMin priceKey _ hne
  refine ⟨m, ?_, hfm⟩
  rw [lowest_auction, hmat]
  exact hpm

/-- C3: the page renderer slices items `[page_index*10, page_index*10+10)` of
the sorted listing sequence, emits a "previous" control iff `page_index > 0`
and a "next" control iff `page_index*10+10 < total count`; consequently for a
result set of exactly 25 items, page 0 has 10 items with next-only controls,
page 1 has 10 items with both, page 2 has 5 items with previous-only. -/
theorem build_ah_page_paging (search_id search_term : String) (sorted_items : List Listing)
    (page_index : Nat) (l25 : List Listing) (h25 : l25.length = 25) :
    page_items_of sorted_items (page_index : Int)
        = (sorted_items.drop (page_index * 10)).take 10
    ∧ hasPrevControl (build_ah_page search_id search_term sorted_items (page_index : Int)).2
        = decide (0 < page_index)
    ∧ hasNextControl (build_ah_page search_id search_term sorted_items (page_index : Int)).2
        = decide (page_index * 10 + 10 < sorted_items.length)
    ∧ (page_items_of l25 ((0 : Nat) : Int)).length = 10
    ∧ hasPrevControl (build_ah_page search_id search_term l25 ((0 : Nat) : Int)).2 = false
    ∧ hasNextControl (build_ah_page search_id search_term l25 ((0 : Nat) : Int)).2 = true
    ∧ (page_items_of l25 ((1 : Nat) : Int)).length = 10
    ∧ hasPrevControl (build_ah_page search_id search_term l25 ((1 : Nat) : Int)).2 = true
    ∧ hasNextControl (build_ah_page search_id search_term l25 ((1 : Nat) : Int)).2 = true
    ∧ (page_items_of l25 ((2 : Nat) : Int)).length = 5
    ∧ hasPrevControl (build_ah_page search_id search_term l25 ((2 : Nat) : Int)).2 = true
    ∧ hasNextControl (build_ah_page search_id search_term l25 ((2 : Nat) : Int)).2 = false := by
  refine ⟨page_items_of_natCast _ _, ?_, ?_, ?_, ?_, ?_, ?_, ?_, ?_, ?_, ?_, ?_⟩
  · rw [hasPrevControl_build]
    exact decide_eq_decide.mpr (by exact_mod_cast Iff.rfl)
  · rw [hasNextControl_build]
    refine decide_eq_decide.mpr ?_
    simp only [ITEMS_PER_PAGE]
    exact_mod_cast Iff.rfl
  · rw [page_items_of_natCast, List.length_take, List.length_drop, h25]
    omega
  · rw [hasPrevControl_build]
    decide
  · rw [hasNextControl_build, h25]
    decide
  · rw [page_items_of_natCast, List.length_take, List.length_drop, h25]
    omega
  · rw [hasPrevControl_build]
    decide
  · rw [hasNextControl_build, h25]
    decide
  · rw [page_items_of_natCast, List.length_take, List.length_drop, h25]
    omega
  · rw [hasPrevControl_build]
    decide
  · rw [hasNextControl_build, h25]
    decide

/-- Witness for C3: the paging boundary consequence at the concrete 25-item
result set. -/
theorem build_ah_page_paging_witness :
    (page_items_of listing25 ((2 : Nat) : Int)).length = 5 :=
  (build_ah_page_paging "sid" "stone" listing25 0 listing25 (by decide)).2.2.2.2.2.2.2.2.2.1

/-- C4: the search result ordering is ascending by price (with a missing
price treated as infinite, hence sorting after every priced listing), is a
permutation of the matching listings, and is stable: within each price-key
class the original remote encounter order is kept. -/
theorem sortListings_ordering (matching_items : List Listing) :
    (sortListings matching_items).Pairwise (fun a b => priceKey a ≤ priceKey b)
    ∧ (sortListings matching_items).Perm matching_items
    ∧ (∀ K : WithTop Nat,
        (sortListings matching_items).filter (fun x => decide (priceKey x = K))
          = matching_items.filter (fun x => decide (priceKey x = K)))
    ∧ (sortListings matching_items).Pairwise
        (fun a b => a.price = none → b.price = none) := by
  refine ⟨sortListings_pairwise _, sortListings_perm _,
    fun K => sortListings_filter_key _ K, ?_⟩
  refine (sortListings_pairwise matching_items).imp ?_
  intro a b hab hnone
  have ha : priceKey a = ⊤ := by simp [priceKey, hnone]
  cases hb : b.price with
  | none => rfl
  | some p =>
    exfalso
    have hbk : priceKey b = (p : WithTop Nat) := by simp [priceKey, hb]
    rw [ha, hbk] at hab
    exact absurd (top_le_iff.mp hab) (WithTop.coe_ne_top)

/-- C5 (code bug in the claim's scope): a navigation token that splits into
three colon-separated fields but whose page-index field is not an integer is
not silently ignored: `int(page_index_str)` sits outside the
`try/except ValueError` that guards the split, so the handler raises
`ValueError` instead of returning silently (first conjunct).  A token with
the wrong number of fields is silently ignored as the claim says (second
conjunct). -/
theorem button_handler_nonint_page_raises :
    button_handler [] "ah:abc:xyz" = (HandlerResult.valueErrorRaised "xyz", [])
    ∧ button_handler [] "ah:abc" = (HandlerResult.silent, []) := by
  exact ⟨rfl, rfl⟩

/-- C6: the API client returns the parsed JSON payload for HTTP 200 or 500,
no data for 404 with nothing logged, no data with a logged diagnostic for
every other status (the code logs it at warning severity), and no data with a
logged error on transport failure or on a JSON parse failure of a 200/500
body. -/
theorem make_api_request_classification {α : Type} (endpoint t1 t2 t3 : String)
    (payload : α) (j2 j3 : Option α) (s1 s3 : Nat) (e : String)
    (h1 : s1 = 200 ∨ s1 = 500)
    (h3a : s3 ≠ 200) (h3b : s3 ≠ 500) (h3c : s3 ≠ 404) :
    make_api_request endpoint (ApiResponse.response s1 t1 (some payload)) = (some payload, [])
    ∧ make_api_request endpoint (ApiResponse.response 404 t2 j2) = (none, [])
    ∧ (make_api_request endpoint (ApiResponse.response s3 t3 j3)).1 = none
    ∧ (make_api_request endpoint (ApiResponse.response s3 t3 j3)).2 ≠ []
    ∧ (make_api_request endpoint (ApiResponse.requestException e : ApiResponse α)).1 = none
    ∧ (make_api_request endpoint (ApiResponse.requestException e : ApiResponse α)).2 ≠ []
    ∧ (make_api_request endpoint (ApiResponse.response s1 t1 (none : Option α))).1 = none
    ∧ (make_api_request endpoint (ApiResponse.response s1 t1 (none : Option α))).2 ≠ [] := by
  have h404 : ¬((404 : Nat) = 200 ∨ (404 : Nat) = 500) := by omega
  have h3 : ¬(s3 = 200 ∨ s3 = 500) := by tauto
  refine ⟨?_, ?_, ?_, ?_, rfl, ?_, ?_, ?_⟩
  · simp only [make_api_request]
    rw [if_pos h1]
  · simp only [make_api_request]
    rw [if_neg h404]
    simp
  · simp only [make_api_request]
    rw [if_neg h3, if_neg h3c]
  · simp only [make_api_request]
    rw [if_neg h3, if_neg h3c]
    simp
  · simp [make_api_request]
  · simp only [make_api_request]
    rw [if_pos h1]
  · simp only [make_api_request]
    rw [if_pos h1]
    simp

/-- Witness for C6 at concrete statuses (200 for the success clause, 403 for
the other-status clause). -/
theorem make_api_request_classification_witness :
    make_api_request "/auction/list/1" (ApiResponse.response 200 "" (some 1)) = (some 1, []) :=
  (make_api_request_classification "/auction/list/1" "" "" "" 1 none none 200 403 "boom"
    (Or.inl rfl) (by omega) (by omega) (by omega)).1

/-- C7: for every well-formed navigation token (three colon-separated fields,
command `"ah"`, integer page-index field) whose search id is absent from the
conversation cache, the router responds with the "search expired or invalid"
message, renders nothing, leaves the cache unchanged, and does not raise. -/
theorem button_handler_expired (chat_data : ChatData)
    (callback_data search_id page_index_str : String) (page_index : Int)
    (hsplit : pySplit callback_data ':' = ["ah", search_id, page_index_str])
    (hparse : pyParseInt page_index_str = some page_index)
    (hmiss : chatDataGet chat_data search_id = none) :
    button_handler chat_data callback_data = (HandlerResult.expiredMessage, chat_data) := by
  simp only [button_handler, hsplit, hparse, hmiss]
  simp

/-- Witness for C7: an unknown search id on an empty cache. -/
theorem button_handler_expired_witness :
    button_handler [] "ah:deadbeef:0" = (HandlerResult.expiredMessage, []) :=
  button_handler_expired [] "ah:deadbeef:0" "deadbeef" "0" 0 (by decide) (by decide) rfl

/-- C8: for every page index whose slice start lies at or beyond the end of
the result set, the renderer does not fail: it renders a page with zero items,
suppresses the "next" control, and emits the "previous" control exactly by
its usual `page_index > 0` rule (the appropriate suppression: there is
nothing following, while navigating back is still offered off page 0). -/
theorem build_ah_page_out_of_range (search_id search_term : String)
    (sorted_items : List Listing) (page_index : Nat)
    (hout : sorted_items.length ≤ page_index * 10) :
    page_items_of sorted_items (page_index : Int) = []
    ∧ hasNextControl
        (build_ah_page search_id search_term sorted_items (page_index : Int)).2 = false
    ∧ hasPrevControl
        (build_ah_page search_id search_term sorted_items (page_index : Int)).2
        = decide (0 < page_index) := by
  refine ⟨?_, ?_, ?_⟩
  · rw [page_items_of_natCast, List.drop_eq_nil_of_le hout, List.take_nil]
  · rw [hasNextControl_build]
    simp only [ITEMS_PER_PAGE, decide_eq_false_iff_not]
    push_cast
    omega
  · rw [hasPrevControl_build]
    exact decide_eq_decide.mpr (by exact_mod_cast Iff.rfl)

/-- Witness for C8: page 3 of the 25-item result set is out of range and
renders empty. -/
theorem build_ah_page_out_of_range_witness :
    page_items_of listing25 ((3 : Nat) : Int) = [] :=
  (build_ah_page_out_of_range "sid" "stone" listing25 3 (by decide)).1

/-- C9: rendering is idempotent and deterministic: the router never modifies
the cache, so re-dispatching the same navigation token over the cache state
left by a first dispatch produces the identical outcome — the same display
text and the same presence and targets of the previous/next controls (the
outcome carries the full keyboard). -/
theorem button_handler_render_idempotent (chat_data : ChatData) (callback_data : String) :
    (button_handler chat_data callback_data).2 = chat_data
    ∧ button_handler (button_handler chat_data callback_data).2 callback_data
        = button_handler chat_data callback_data := by
  refine ⟨button_handler_snd chat_data callback_data, ?_⟩
  rw [button_handler_snd]

/-- C10: whenever the remote data ends within the 100-page cap and at least
one listing matches, the listing the minimum search returns is exactly the
head of the exhaustive search's sorted result: both select the
first-encountered listing of minimal price. -/
theorem price_command_refines_ah_head (fetch : Nat → List Listing) (search_term : String)
    (k fuel : Nat)
    (hpages : ∀ p, 1 ≤ p → p ≤ k → fetch p ≠ [])
    (hstop : fetch (k + 1) = [])
    (hcap : k + 1 ≤ 100)
    (hfuel : k + 1 ≤ fuel)
    (hne : ah_sorted_items fetch search_term ≠ []) :
    lowest_auction fetch search_term fuel = (ah_sorted_items fetch search_term).head? := by
  have htrue : ∀ p, 1 ≤ p → p < 1 + k → pageNonempty fetch p = true := by
    intro p hp1 hp2
    have := hpages p hp1 (by omega)
    simp [pageNonempty, List.isEmpty_iff, this]
  have hfalse : pageNonempty fetch (1 + k) = false := by
    have : 1 + k = k + 1 := by omega
    simp [pageNonempty, List.isEmpty_iff, this, hstop]
  have hah_tw : (List.range' 1 100).takeWhile (pageNonempty fetch) = List.range' 1 k :=
    takeWhile_range'_of_boundary (pageNonempty fetch) k 100 1 (by omega) htrue hfalse
  have hstopIdx : ahStopIdx fetch = k := by
    rw [ahStopIdx, hah_tw, List.length_range']
  have hmatchA : ah_matching_items fetch search_term = scanUnion fetch search_term k := by
    rw [ah_matching_items_eq, hstopIdx]
  have hp_tw : (List.range' 1 fuel).takeWhile (pageNonempty fetch) = List.range' 1 k :=
    takeWhile_range'_of_boundary (pageNonempty fetch) k fuel 1 (by omega) htrue hfalse
  have hmatchP : price_matching_items fetch search_term fuel = scanUnion fetch search_term k := by
    rw [price_matching_items, priceLoop_eq fetch search_term fuel 1 [], hp_tw]
    rfl
  have hneS : scanUnion fetch search_term k ≠ [] := by
    intro h0
    apply hne
    rw [ah_sorted_items, hmatchA, h0, sortListings, List.mergeSort_nil]
  rw [lowest_auction, hmatchP, ah_sorted_items, hmatchA]
  exact (head?_sortListings _ hneS).symm

/-- Witness for C10: the concrete two-page feed; the lowest-priced match is
the head of the sorted exhaustive result. -/
theorem price_command_refines_ah_head_witness :
    lowest_auction fetchTwoPages "stone" 3 = (ah_sorted_items fetchTwoPages "stone").head? :=
  price_command_refines_ah_head fetchTwoPages "stone" 2 3
    (by intro p h1 h2; interval_cases p <;> decide)
    (by decide) (by decide) (by decide)
    (by
      have hlen : (ah_sorted_items fetchTwoPages "stone").length = 3 := by
        rw [ah_sorted_items, sortListings, List.length_mergeSort]
        decide
      intro h
      rw [h] at hlen
      simp at hlen)

/-- Witness for C2: the concrete two-page feed with fuel 3. -/
theorem price_command_search_correct_witness :
    price_matching_items fetchTwoPages "stone" 3 = scanUnion fetchTwoPages "stone" 2
    ∧ ∃ m, lowest_auction fetchTwoPages "stone" 3 = some m
        ∧ IsFirstMin priceKey (scanUnion fetchTwoPages "stone" 2) m :=
  price_command_search_correct fetchTwoPages "stone" 2 3
    (by intro p h1 h2; interval_cases p <;> decide)
    (by decide) (by decide) (by decide)

end DonutBot
